import Mathlib

/-!
The command parser, the decoding of the store connector, the result renderer
and the session loop of redcli.

A shallow embedding of `internal/command/parser.go`, `internal/redis/client.go`,
`internal/display/display.go` and the read-eval-print loop of `main.go`.

Go strings are modelled by `String` (sequences of Unicode scalar values), what
is written to standard output or standard error by the text written, and the
behaviour of the libraries the program calls (the Unicode case tables,
`encoding/json`, the `%v` verb, the go-redis command object) by the fields of
`GoLib` and `redis.Cmd`, over which every theorem is quantified.
-/

set_option autoImplicit false

namespace Redcli

/-! ## internal/redis/types.go and the dynamic values of the program -/

namespace redis

/-- A reply value as go-redis hands it over in an `interface{}`: `nil`, a
`string`, an `int64`, or a value of any other dynamic type (a `float64`, a
`bool`, a `[]interface{}`, a map), which the program only ever prints and which
is kept as an uninterpreted description. -/
inductive Raw where
  | nil
  | string (s : String)
  | int64 (n : Int)
  | other (desc : String)
  deriving DecidableEq, Repr

/-- The type `HashField`: a field-value pair of a hash. -/
structure HashField where
  Key : String
  Value : String
  deriving DecidableEq, Repr

/-- The type `HashResult`: the result of `HGETALL`. -/
structure HashResult where
  Fields : List HashField
  deriving DecidableEq, Repr

/-- The type `SortedSetMember`: both components are `interface{}` in the source. -/
structure SortedSetMember where
  Score : Raw
  Member : Raw
  deriving DecidableEq, Repr

/-- The type `SortedSetResult`: the result of `ZRANGE`. -/
structure SortedSetResult where
  Members : List SortedSetMember
  deriving DecidableEq, Repr

/-- The dynamic values `Client.Execute` returns in its `interface{}`: a raw
reply value (from `Text` and `Result`), a Go `int` (from `Int`), a `[]string`
(from `StringSlice`), a `HashResult` or a `SortedSetResult`. -/
inductive Value where
  | raw (r : Raw)
  | int (n : Int)
  | stringSlice (xs : List String)
  | hashResult (h : HashResult)
  | sortedSetResult (z : SortedSetResult)
  deriving DecidableEq, Repr

end redis

/-! ## The Go standard library, as far as the program uses it -/

/-- Library behaviour the program depends on and does not define itself. -/
structure GoLib where
  /-- Go `unicode.ToUpper` on runes above `unicode.MaxASCII` (the case tables). -/
  upperTable : Char → Char
  /-- Go `unicode.ToLower` on runes above `unicode.MaxASCII` (the case tables). -/
  lowerTable : Char → Char
  /-- The values `json.Unmarshal` decodes into an `interface{}`. -/
  Json : Type
  /-- Go `json.Unmarshal([]byte(s), &data)`: `none` when it returns an error. -/
  unmarshal : String → Option Json
  /-- Go `json.MarshalIndent(data, "", "  ")`: `none` when it returns an error. -/
  marshalIndent : Json → Option String
  /-- Go `json.MarshalIndent(data, "", "  ")` on a result value of the program. -/
  marshalIndentValue : redis.Value → Option String
  /-- The text the verb `%v` prints for a value. -/
  formatV : redis.Value → String

namespace strings

/-- Go `unicode.IsSpace`: the Latin-1 spaces and the `White_Space` table. -/
def isSpace (c : Char) : Bool :=
  let n := c.toNat
  (0x09 ≤ n && n ≤ 0x0D) || n == 0x20 || n == 0x85 || n == 0xA0 || n == 0x1680 ||
    (0x2000 ≤ n && n ≤ 0x200A) || n == 0x2028 || n == 0x2029 || n == 0x202F ||
    n == 0x205F || n == 0x3000

/-- Go `unicode.ToUpper`: below `MaxASCII` the letters `a`..`z` move down by
`'a' - 'A'`, every other rune goes through the case tables. -/
def unicodeToUpper (lib : GoLib) (r : Char) : Char :=
  if r.toNat ≤ 0x7F then
    if 'a'.toNat ≤ r.toNat ∧ r.toNat ≤ 'z'.toNat then Char.ofNat (r.toNat - 32) else r
  else lib.upperTable r

/-- Go `unicode.ToLower`: below `MaxASCII` the letters `A`..`Z` move up by
`'a' - 'A'`, every other rune goes through the case tables. -/
def unicodeToLower (lib : GoLib) (r : Char) : Char :=
  if r.toNat ≤ 0x7F then
    if 'A'.toNat ≤ r.toNat ∧ r.toNat ≤ 'Z'.toNat then Char.ofNat (r.toNat + 32) else r
  else lib.lowerTable r

/-- Go `strings.ToUpper`: every rune mapped by `unicode.ToUpper`. -/
def ToUpper (lib : GoLib) (s : String) : String :=
  ⟨s.data.map (unicodeToUpper lib)⟩

/-- Go `strings.ToLower`: every rune mapped by `unicode.ToLower`. -/
def ToLower (lib : GoLib) (s : String) : String :=
  ⟨s.data.map (unicodeToLower lib)⟩

/-- Go `strings.TrimSpace`: the string without its leading and trailing white
space. -/
def TrimSpace (s : String) : String :=
  ⟨((s.data.dropWhile isSpace).reverse.dropWhile isSpace).reverse⟩

/-- The scan of `strings.Fields` (`FieldsFunc` with `unicode.IsSpace`): `cur`
is the field being read, `none` between fields; a white-space rune closes the
open field, any other rune opens or extends one, the end of input closes it. -/
def fieldsGo : Option (List Char) → List Char → List (List Char)
  | none, [] => []
  | some w, [] => [w]
  | none, c :: cs => if isSpace c then fieldsGo none cs else fieldsGo (some [c]) cs
  | some w, c :: cs =>
    if isSpace c then w :: fieldsGo none cs else fieldsGo (some (w ++ [c])) cs

/-- Go `strings.Fields`: the fields the scan returns, from its start. -/
def Fields (s : String) : List String :=
  (fieldsGo none s.data).map String.mk

/-- Go `strings.HasPrefix`. -/
def HasPrefix (s p : String) : Bool := p.data.isPrefixOf s.data

/-- Go `strings.HasSuffix`. -/
def HasSuffix (s p : String) : Bool := p.data.isSuffixOf s.data

end strings

/-! ## internal/command/parser.go -/

namespace command

open strings

/-- The map literal `writeCommands`, entry by entry. -/
def writeCommands : List (String × Bool) :=
  [("SET", true), ("SETNX", true), ("SETEX", true), ("PSETEX", true), ("MSET", true),
   ("MSETNX", true), ("GETSET", true), ("APPEND", true), ("SETRANGE", true),
   ("INCR", true), ("INCRBY", true), ("INCRBYFLOAT", true), ("DECR", true),
   ("DECRBY", true), ("DEL", true), ("UNLINK", true), ("EXPIRE", true),
   ("EXPIREAT", true), ("PEXPIRE", true), ("PEXPIREAT", true), ("PERSIST", true),
   ("HSET", true), ("HSETNX", true), ("HMSET", true), ("HINCRBY", true),
   ("HINCRBYFLOAT", true), ("HDEL", true), ("LPUSH", true), ("RPUSH", true),
   ("LPOP", true), ("RPOP", true), ("LINSERT", true), ("LSET", true), ("LTRIM", true),
   ("RPOPLPUSH", true), ("SADD", true), ("SREM", true), ("SPOP", true), ("SMOVE", true),
   ("SINTERSTORE", true), ("SUNIONSTORE", true), ("SDIFFSTORE", true), ("ZADD", true),
   ("ZINCRBY", true), ("ZREM", true), ("ZREMRANGEBYRANK", true),
   ("ZREMRANGEBYSCORE", true), ("ZREMRANGEBYLEX", true), ("ZUNIONSTORE", true),
   ("ZINTERSTORE", true), ("PFADD", true), ("PFMERGE", true), ("PUBLISH", true),
   ("RENAME", true), ("RENAMENX", true), ("MIGRATE", true), ("MOVE", true),
   ("RESTORE", true), ("DUMP", true), ("FLUSHDB", true), ("FLUSHALL", true),
   ("SORT", true), ("BITOP", true), ("GEOADD", true)]

/-- Indexing a Go `map[string]bool`: the stored value, `false` for a key the
map does not hold. -/
def mapIndex (m : List (String × Bool)) (key : String) : Bool :=
  (m.lookup key).getD false

/-- The loop of `Parse`: `for i := 1; i < len(parts); i++`, appending
`parts[i]` to `args`. -/
def parseLoop (parts : List String) (i : Nat) (args : List String) : List String :=
  if h : i < parts.length then parseLoop parts (i + 1) (args ++ [parts[i]]) else args
termination_by parts.length - i

/-- Function `Parse`: the fields of the input; none gives `("", nil)`, otherwise the
first field upper-cased and the fields from index 1 on. -/
def Parse (lib : GoLib) (input : String) : String × List String :=
  let parts := Fields input
  if h : parts.length = 0 then ("", [])
  else
    have : 0 < parts.length := Nat.pos_of_ne_zero h
    (ToUpper lib parts[0], parseLoop parts 1 [])

/-- Function `IsWriteCommand`: the entry of the upper-cased name in the map. -/
def IsWriteCommand (lib : GoLib) (cmd : String) : Bool :=
  mapIndex writeCommands (ToUpper lib cmd)

/-- Function `IsReadCommand`. -/
def IsReadCommand (lib : GoLib) (cmd : String) : Bool :=
  !IsWriteCommand lib cmd

end command

/-! ## internal/redis/client.go -/

namespace redis

open strings

/-- The observations the program makes of a go-redis `*redis.Cmd`: `Err()`,
the value `Result()` returns next to that error, and what the typed accessors
`Text()`, `Int()`, `StringSlice()` and `Slice()` return. An error is kept as
its message. -/
structure Cmd where
  Err : Option String
  val : Raw
  Text : Except String String
  Int : Except String Int
  StringSlice : Except String (List String)
  Slice : Except String (List Raw)

/-- Method `Cmd.Result()`: the value and the error of the command. -/
def Cmd.Result (c : Cmd) : Except String Value :=
  match c.Err with
  | some e => .error e
  | none => .ok (.raw c.val)

/-- The pairing loop of `parseHashResult`: `for i := 0; i < len(vals); i += 2`,
appending the pair at `i`, `i+1` when `i+1 < len(vals)`. -/
def hashLoop (vals : List String) (i : Nat) (fields : List HashField) : List HashField :=
  if h : i < vals.length then
    if h1 : i + 1 < vals.length then
      hashLoop vals (i + 2) (fields ++ [⟨vals[i], vals[i + 1]⟩])
    else
      hashLoop vals (i + 2) fields
  else fields
termination_by vals.length - i

/-- The pairing loop of `parseSortedSetResult`, the same loop over raw values. -/
def sortedSetLoop (vals : List Raw) (i : Nat) (members : List SortedSetMember) :
    List SortedSetMember :=
  if h : i < vals.length then
    if h1 : i + 1 < vals.length then
      sortedSetLoop vals (i + 2) (members ++ [⟨vals[i], vals[i + 1]⟩])
    else
      sortedSetLoop vals (i + 2) members
  else members
termination_by vals.length - i

/-- Method `Client.parseHashResult`. -/
def parseHashResult (lib : GoLib) (cmd : String) (result : Cmd) : Except String Value :=
  if ToUpper lib cmd = "HGET" then
    (result.Text).map fun s => Value.raw (.string s)
  else
    match result.StringSlice with
    | .error err => .error err
    | .ok vals => .ok (.hashResult ⟨hashLoop vals 0 []⟩)

/-- Method `Client.parseSortedSetResult`. -/
def parseSortedSetResult (result : Cmd) : Except String Value :=
  match result.Slice with
  | .error err => .error err
  | .ok vals => .ok (.sortedSetResult ⟨sortedSetLoop vals 0 []⟩)

/-- Method `Client.parseResult`: the `switch` on the upper-cased command name. -/
def parseResult (lib : GoLib) (cmd : String) (result : Cmd) : Except String Value :=
  let u := ToUpper lib cmd
  if u = "GET" then (result.Text).map fun s => Value.raw (.string s)
  else if u = "SET" then result.Result
  else if u = "HGET" ∨ u = "HGETALL" then parseHashResult lib cmd result
  else if u = "LRANGE" ∨ u = "LLEN" then (result.StringSlice).map Value.stringSlice
  else if u = "ZRANGE" ∨ u = "ZREVRANGE" then parseSortedSetResult result
  else if u = "SMEMBERS" ∨ u = "SISMEMBER" then (result.StringSlice).map Value.stringSlice
  else if u = "EXISTS" then (result.Int).map Value.int
  else if u = "TTL" then (result.Int).map Value.int
  else if u = "TYPE" then (result.Text).map fun s => Value.raw (.string s)
  else if u = "KEYS" then (result.StringSlice).map Value.stringSlice
  else if u = "DBSIZE" then (result.Int).map Value.int
  else if u = "INFO" then (result.Text).map fun s => Value.raw (.string s)
  else if u = "PING" then (result.Text).map fun s => Value.raw (.string s)
  else (result.Text).map fun s => Value.raw (.string s)

/-- Method `Client.Execute`: the request frame is the command followed by its
arguments; `send` is `c.client.Do` on the connection in state `st`. An error of
the command is returned as it is, otherwise the reply is decoded by
`parseResult`. -/
def Execute {σ : Type} (lib : GoLib) (send : σ → List String → Cmd × σ) (st : σ)
    (cmd : String) (args : List String) : Except String Value × σ :=
  let cmdArgs := ([] ++ [cmd]) ++ args
  let r := send st cmdArgs
  match r.1.Err with
  | some err => (.error err, r.2)
  | none => (parseResult lib cmd r.1, r.2)

/-- What go-redis reports for a nil reply of the store: the command carries the
error `redis.Nil`, whose message is `redis: nil`, and every accessor returns
that error. -/
def nilReply : Cmd :=
  { Err := some "redis: nil", val := .nil, Text := .error "redis: nil",
    Int := .error "redis: nil", StringSlice := .error "redis: nil",
    Slice := .error "redis: nil" }

end redis

/-! ## internal/display/display.go -/

namespace display

open strings redis

/-- The type `Config` of the display package. -/
structure Config where
  Pretty : Bool
  NoColor : Bool
  deriving DecidableEq, Repr

/-- Constant `Reset`. -/
def Reset : String := "\x1b[0m"
/-- Constant `Red`. -/
def Red : String := "\x1b[31m"
/-- Constant `Green`. -/
def Green : String := "\x1b[32m"
/-- Constant `Yellow`. -/
def Yellow : String := "\x1b[33m"
/-- Constant `Cyan`. -/
def Cyan : String := "\x1b[36m"

/-- Variable `colorKey`. -/
def colorKey : String := Cyan
/-- Variable `colorString`. -/
def colorString : String := Green
/-- Variable `colorNumber`. -/
def colorNumber : String := Yellow
/-- Variable `colorError`. -/
def colorError : String := Red
/-- Variable `colorField`. -/
def colorField : String := Yellow
/-- Variable `colorMember`. -/
def colorMember : String := Green
/-- Variable `colorScore`. -/
def colorScore : String := Yellow

/-- Function `isJSON`: the trimmed string starts with an opening and ends with the
matching closing brace or bracket. -/
def isJSON (s : String) : Bool :=
  let s := TrimSpace s
  (HasPrefix s "\x7b" && HasSuffix s "\x7d") || (HasPrefix s "[" && HasSuffix s "]")

/-- Function `displayAsJSONPretty`: the text written to standard output. -/
def displayAsJSONPretty (lib : GoLib) (jsonStr : String) (config : Config) : String :=
  match lib.unmarshal jsonStr with
  | none =>
    if !config.NoColor then colorString ++ jsonStr ++ Reset ++ "\n" else jsonStr ++ "\n"
  | some data =>
    match lib.marshalIndent data with
    | none => jsonStr ++ "\n"
    | some formatted =>
      if !config.NoColor then colorString ++ formatted ++ Reset ++ "\n"
      else formatted ++ "\n"

/-- Function `displayString`. -/
def displayString (lib : GoLib) (s : String) (config : Config) : String :=
  if config.Pretty && isJSON s then displayAsJSONPretty lib s config
  else if !config.NoColor then colorString ++ s ++ Reset ++ "\n"
  else s ++ "\n"

/-- Function `displayInteger`: `%d` of an `int64`. -/
def displayInteger (n : Int) (config : Config) : String :=
  if !config.NoColor then colorNumber ++ toString n ++ Reset ++ "\n"
  else toString n ++ "\n"

/-- The `range` loop of `displayStringArray`; `i` is the index of the head. -/
def displayStringArrayLoop (config : Config) : Nat → List String → String
  | _, [] => ""
  | i, item :: rest =>
    (if !config.NoColor then
        colorNumber ++ toString (i + 1) ++ ")" ++ Reset ++ " " ++ colorString ++ item ++ Reset
          ++ "\n"
      else toString (i + 1) ++ ") " ++ item ++ "\n")
      ++ displayStringArrayLoop config (i + 1) rest

/-- Function `displayStringArray`. -/
def displayStringArray (arr : List String) (config : Config) : String :=
  if arr.length = 0 then "(empty array)\n"
  else displayStringArrayLoop config 0 arr

/-- One iteration of the `range` loop of `displayHash`. -/
def displayHashField (lib : GoLib) (field : HashField) (config : Config) : String :=
  (if !config.NoColor then
      colorField ++ "field:" ++ Reset ++ " " ++ colorKey ++ field.Key ++ Reset ++ "\n"
        ++ (colorField ++ "value:" ++ Reset ++ " ")
        ++ (if config.Pretty && isJSON field.Value then
              displayAsJSONPretty lib field.Value config
            else colorString ++ field.Value ++ Reset ++ "\n")
    else
      "field: " ++ field.Key ++ "\n"
        ++ (if config.Pretty && isJSON field.Value then
              displayAsJSONPretty lib field.Value config
            else "value: " ++ field.Value ++ "\n"))
    ++ "\n"

/-- The `range` loop of `displayHash`. -/
def displayHashLoop (lib : GoLib) (config : Config) : List HashField → String
  | [] => ""
  | field :: rest => displayHashField lib field config ++ displayHashLoop lib config rest

/-- Function `displayHash`. -/
def displayHash (lib : GoLib) (hash : HashResult) (config : Config) : String :=
  if hash.Fields.length = 0 then "(empty hash)\n"
  else displayHashLoop lib config hash.Fields

/-- The `range` loop of `displaySortedSet`. -/
def displaySortedSetLoop (lib : GoLib) (config : Config) : List SortedSetMember → String
  | [] => ""
  | member :: rest =>
    (if !config.NoColor then
        colorScore ++ "score:" ++ Reset ++ " " ++ colorNumber
            ++ lib.formatV (.raw member.Score) ++ Reset ++ "\n"
          ++ (colorMember ++ "member:" ++ Reset ++ " " ++ colorString
            ++ lib.formatV (.raw member.Member) ++ Reset ++ "\n")
      else
        "score: " ++ lib.formatV (.raw member.Score) ++ "\n"
          ++ ("member: " ++ lib.formatV (.raw member.Member) ++ "\n"))
      ++ "\n" ++ displaySortedSetLoop lib config rest

/-- Function `displaySortedSet`. -/
def displaySortedSet (lib : GoLib) (sortedSet : SortedSetResult) (config : Config) : String :=
  if sortedSet.Members.length = 0 then "(empty sorted set)\n"
  else displaySortedSetLoop lib config sortedSet.Members

/-- Function `displayAsJSON`. -/
def displayAsJSON (lib : GoLib) (data : Value) (config : Config) : String :=
  match lib.marshalIndentValue data with
  | none => lib.formatV data ++ "\n"
  | some formatted =>
    if !config.NoColor then colorString ++ formatted ++ Reset ++ "\n" else formatted ++ "\n"

/-- Function `Result`: the text written to standard output for a result. A Go `int` and
a raw value that is neither `nil`, a `string` nor an `int64` reach the
`default` case of the type switch. -/
def Result (lib : GoLib) (result : Value) (config : Config) : String :=
  match result with
  | .raw .nil => "(nil)\n"
  | .raw (.string r) => displayString lib r config
  | .raw (.int64 r) => displayInteger r config
  | .stringSlice r => displayStringArray r config
  | .hashResult r => displayHash lib r config
  | .sortedSetResult r => displaySortedSet lib r config
  | .raw (.other _) => displayAsJSON lib result config
  | .int _ => displayAsJSON lib result config

/-- Function `Error`: the text written to standard error for the formatted message. -/
def Error (msg : String) : String := colorError ++ msg ++ Reset

/-- Function `Success`: the text written to standard output for the formatted message. -/
def Success (msg : String) : String := colorString ++ msg ++ Reset

end display

/-! ## main.go: the read-eval-print loop -/

/-- What one turn of the loop does that can be observed from outside, in order:
text written to standard output, text written to standard error, and a call of
`client.Execute`. -/
inductive Event where
  | stdout (text : String)
  | stderr (text : String)
  | execute (cmd : String) (args : List String)
  deriving DecidableEq, Repr

/-- The loop after a line: `Running` where the source falls through or says
`continue`, `Exiting` where it says `break`. -/
inductive Status where
  | Running
  | Exiting
  deriving DecidableEq, Repr

open strings command redis

/-- The body of the `for` loop of `main` from the line `scanner.Text()` on:
what it does, whether the loop goes on, and the connection afterwards.
`writable` is the flag `-writable`, `send` is the connection's `Do`. -/
def loopBody {σ : Type} (lib : GoLib) (writable : Bool) (displayConfig : display.Config)
    (send : σ → List String → Cmd × σ) (st : σ) (line : String) :
    List Event × Status × σ :=
  let input := TrimSpace line
  if input = "" then ([], .Running, st)
  else if ToLower lib input = "exit" ∨ ToLower lib input = "quit" then
    ([.stdout "Exiting...\n"], .Exiting, st)
  else
    let p := Parse lib input
    if p.1 = "" then ([], .Running, st)
    else if !writable && IsWriteCommand lib p.1 then
      ([.stderr (display.Error ("Command \x27" ++ p.1 ++
          "\x27 is not allowed in read-only mode. Use --writable flag to enable write commands.\n"))],
        .Running, st)
    else
      let r := Execute lib send st p.1 p.2
      match r.1 with
      | .error err =>
        ([.execute p.1 p.2, .stderr (display.Error ("Error: " ++ err ++ "\n"))], .Running, r.2)
      | .ok result =>
        ([.execute p.1 p.2, .stdout (display.Result lib result displayConfig)], .Running, r.2)

/-- The `for` loop of `main` over the lines standard input still holds: the
prompt, then the end of input or a line and the body of the loop on it. -/
def replLoop {σ : Type} (lib : GoLib) (writable : Bool) (displayConfig : display.Config)
    (send : σ → List String → redis.Cmd × σ) : σ → List String → List Event
  | _, [] => [.stdout "redcli> "]
  | st, line :: rest =>
    let r := loopBody lib writable displayConfig send st line
    .stdout "redcli> " :: r.1 ++
      (match r.2.1 with
       | .Running => replLoop lib writable displayConfig send r.2.2 rest
       | .Exiting => [])

/-! ## The specification's side -/

/-- The write-command list of section 6 of the specification, in its order. -/
def staticWriteSet : List String :=
  ["SET", "SETNX", "SETEX", "PSETEX", "MSET", "MSETNX", "GETSET", "APPEND", "SETRANGE",
   "INCR", "INCRBY", "INCRBYFLOAT", "DECR", "DECRBY", "DEL", "UNLINK", "EXPIRE",
   "EXPIREAT", "PEXPIRE", "PEXPIREAT", "PERSIST", "HSET", "HSETNX", "HMSET", "HINCRBY",
   "HINCRBYFLOAT", "HDEL", "LPUSH", "RPUSH", "LPOP", "RPOP", "LINSERT", "LSET", "LTRIM",
   "RPOPLPUSH", "SADD", "SREM", "SPOP", "SMOVE", "SINTERSTORE", "SUNIONSTORE",
   "SDIFFSTORE", "ZADD", "ZINCRBY", "ZREM", "ZREMRANGEBYRANK", "ZREMRANGEBYSCORE",
   "ZREMRANGEBYLEX", "ZUNIONSTORE", "ZINTERSTORE", "PFADD", "PFMERGE", "PUBLISH",
   "RENAME", "RENAMENX", "MIGRATE", "MOVE", "RESTORE", "DUMP", "FLUSHDB", "FLUSHALL",
   "SORT", "BITOP", "GEOADD"]

/-- Two runes are the same letter in some casing: equal, or one of `A`..`Z`
and its lower-case form. -/
def sameLetter (a b : Char) : Bool :=
  a == b ||
    ((65 ≤ a.toNat && a.toNat ≤ 90 && b.toNat == a.toNat + 32) ||
      (65 ≤ b.toNat && b.toNat ≤ 90 && a.toNat == b.toNat + 32))

/-- A string is another one in some casing: the same length, and rune by rune
the same letter. -/
def SameInSomeCasing (s t : String) : Prop :=
  List.Forall₂ (fun a b => sameLetter a b = true) s.data t.data

/-- Splitting on whitespace runs: the line is its tokens, each non-empty and free
of white space, in order, with a white-space rune after each token but the last
and any further white space around them. -/
inductive Tokenized : List Char → List (List Char) → Prop where
  | done : Tokenized [] []
  | space (c : Char) (line : List Char) (toks : List (List Char)) :
      strings.isSpace c = true → Tokenized line toks → Tokenized (c :: line) toks
  | last (t : List Char) :
      t ≠ [] → (∀ c ∈ t, strings.isSpace c = false) → Tokenized t [t]
  | cons (t : List Char) (c : Char) (line : List Char) (toks : List (List Char)) :
      t ≠ [] → (∀ c ∈ t, strings.isSpace c = false) → strings.isSpace c = true →
      Tokenized line toks → Tokenized (t ++ c :: line) (t :: toks)

/-- Pairing adjacent elements in order, dropping a final unpaired trailing
element: the pairing of a flat reply as the specification words it. -/
def pairUp : List String → List redis.HashField
  | k :: v :: rest => ⟨k, v⟩ :: pairUp rest
  | _ => []

/-- The number of lines of a text: its line feeds. -/
def lineCount (s : String) : Nat := s.data.count '\n'

/-- An instance of the library behaviour, to evaluate the program on concrete
input: the case tables leave the runes above ASCII alone, the JSON decoder
accepts the text of the empty object only and prints it back, nothing else is
formatted. It stands for the Go libraries on ASCII text whose JSON-shaped values
are the empty object or do not parse. -/
def sampleLib : GoLib :=
  { upperTable := id
    lowerTable := id
    Json := Unit
    unmarshal := fun s => if s = "\x7b\x7d" then some () else none
    marshalIndent := fun _ => some "\x7b\x7d"
    marshalIndentValue := fun _ => none
    formatV := fun _ => "" }

/-! ## Theorems -/

open strings command redis display
/-! ### Casing -/

theorem char_eq_iff_toNat (a b : Char) : a = b ↔ a.toNat = b.toNat := by
  constructor
  · intro h; rw [h]
  · intro h
    rw [← Char.ofNat_toNat a, ← Char.ofNat_toNat b, h]

theorem toNat_ofNat_small (n : Nat) (h : n < 0xD800) : (Char.ofNat n).toNat = n := by
  have hv : n.isValidChar := Or.inl h
  simp [Char.ofNat, hv, Char.toNat, Char.ofNatAux]
  rfl

theorem unicodeToUpper_sameLetter (lib : GoLib) (a b : Char) (ha : a.toNat ≤ 0x7F)
    (hb : 65 ≤ b.toNat ∧ b.toNat ≤ 90) :
    unicodeToUpper lib a = b ↔ sameLetter a b = true := by
  have e1 : 'a'.toNat = 97 := by decide
  have e2 : 'z'.toNat = 122 := by decide
  simp only [unicodeToUpper, ha, if_true, e1, e2, sameLetter, Bool.or_eq_true, beq_iff_eq,
    Bool.and_eq_true, decide_eq_true_eq]
  split
  · rename_i h
    rw [char_eq_iff_toNat, toNat_ofNat_small _ (by omega), char_eq_iff_toNat]
    omega
  · rename_i h
    rw [char_eq_iff_toNat]
    omega

theorem unicodeToLower_sameLetter (lib : GoLib) (a b : Char) (ha : a.toNat ≤ 0x7F)
    (hb : 97 ≤ b.toNat ∧ b.toNat ≤ 122) :
    unicodeToLower lib a = b ↔ sameLetter a b = true := by
  have e1 : 'A'.toNat = 65 := by decide
  have e2 : 'Z'.toNat = 90 := by decide
  simp only [unicodeToLower, ha, if_true, e1, e2, sameLetter, Bool.or_eq_true, beq_iff_eq,
    Bool.and_eq_true, decide_eq_true_eq]
  split
  · rename_i h
    rw [char_eq_iff_toNat, toNat_ofNat_small _ (by omega), char_eq_iff_toNat]
    omega
  · rename_i h
    rw [char_eq_iff_toNat]
    omega

theorem map_eq_iff_forall₂ {α β : Type} (f : α → β) (R : α → β → Prop) :
    ∀ (l : List α) (m : List β), (∀ a ∈ l, ∀ b ∈ m, (f a = b ↔ R a b)) →
      (l.map f = m ↔ List.Forall₂ R l m) := by
  intro l
  induction l with
  | nil =>
    intro m _
    cases m <;> simp
  | cons a l ih =>
    intro m h
    cases m with
    | nil => simp
    | cons b m =>
      have h1 : f a = b ↔ R a b := h a (by simp) b (by simp)
      have h2 := ih m (fun x hx y hy => h x (by simp [hx]) y (by simp [hy]))
      simp [h1, h2]

theorem string_eq_iff_data (s t : String) : s = t ↔ s.data = t.data :=
  ⟨fun h => by rw [h], fun h => String.ext h⟩

theorem ToUpper_eq_iff_sameInSomeCasing (lib : GoLib) (s name : String)
    (hs : ∀ c ∈ s.data, c.toNat ≤ 0x7F)
    (hn : ∀ c ∈ name.data, 65 ≤ c.toNat ∧ c.toNat ≤ 90) :
    ToUpper lib s = name ↔ SameInSomeCasing s name := by
  rw [string_eq_iff_data]
  exact map_eq_iff_forall₂ _ _ _ _
    (fun a ha b hb => unicodeToUpper_sameLetter lib a b (hs a ha) (hn b hb))

theorem ToLower_eq_iff_sameInSomeCasing (lib : GoLib) (s name : String)
    (hs : ∀ c ∈ s.data, c.toNat ≤ 0x7F)
    (hn : ∀ c ∈ name.data, 97 ≤ c.toNat ∧ c.toNat ≤ 122) :
    ToLower lib s = name ↔ SameInSomeCasing s name := by
  rw [string_eq_iff_data]
  exact map_eq_iff_forall₂ _ _ _ _
    (fun a ha b hb => unicodeToLower_sameLetter lib a b (hs a ha) (hn b hb))

/-! ### The write-command set -/

theorem mapIndex_eq_true_iff (m : List (String × Bool)) (h : ∀ e ∈ m, e.2 = true)
    (key : String) : mapIndex m key = true ↔ key ∈ m.map Prod.fst := by
  induction m with
  | nil => simp [mapIndex]
  | cons e m ih =>
    obtain ⟨k, v⟩ := e
    have hv : v = true := h (k, v) (by simp)
    have ih' := ih (fun e he => h e (by simp [he]))
    unfold mapIndex at ih' ⊢
    rw [List.lookup_cons]
    by_cases hk : key = k
    · subst hk; simp [hv]
    · have : (key == k) = false := by simpa using hk
      simp [this, ih', hk]

theorem writeCommands_keys : writeCommands.map Prod.fst = staticWriteSet := by rfl

theorem writeCommands_values : ∀ e ∈ writeCommands, e.2 = true := by decide

theorem staticWriteSet_upper :
    ∀ name ∈ staticWriteSet, ∀ c ∈ name.data, 65 ≤ c.toNat ∧ c.toNat ≤ 90 := by decide

theorem IsWriteCommand_iff_mem (lib : GoLib) (s : String) :
    IsWriteCommand lib s = true ↔ ToUpper lib s ∈ staticWriteSet := by
  unfold IsWriteCommand
  rw [mapIndex_eq_true_iff _ writeCommands_values, writeCommands_keys]

theorem IsWriteCommand_empty (lib : GoLib) : IsWriteCommand lib "" = false := by
  have e : ToUpper lib "" = "" := rfl
  rw [← Bool.not_eq_true, IsWriteCommand_iff_mem, e]
  decide

/-- C1: `IsWriteCommand s` is true exactly when upper-casing `s` gives one of the
64 names of the write-command list of the specification, and false for every
other string, the empty one among them; for a string of ASCII runes that is:
exactly when `s` is one of the 64 names in some casing. -/
theorem IsWriteCommand_spec (lib : GoLib) (s : String) :
    (IsWriteCommand lib s = true ↔ ∃ name ∈ staticWriteSet, ToUpper lib s = name) ∧
    (IsWriteCommand lib s = false ↔ ∀ name ∈ staticWriteSet, ToUpper lib s ≠ name) ∧
    ((∀ c ∈ s.data, c.toNat ≤ 0x7F) →
      (IsWriteCommand lib s = true ↔ ∃ name ∈ staticWriteSet, SameInSomeCasing s name)) ∧
    IsWriteCommand lib "" = false ∧
    staticWriteSet.length = 64 ∧ staticWriteSet.Nodup := by
  have h1 : IsWriteCommand lib s = true ↔ ∃ name ∈ staticWriteSet, ToUpper lib s = name := by
    rw [IsWriteCommand_iff_mem]
    constructor
    · intro h; exact ⟨_, h, rfl⟩
    · rintro ⟨n, hn, e⟩; rw [e]; exact hn
  refine ⟨h1, ?_, ?_, ?_, by decide, by decide⟩
  · rw [← Bool.not_eq_true, h1]
    constructor
    · intro h n hn e; exact h ⟨n, hn, e⟩
    · rintro h ⟨n, hn, e⟩; exact h n hn e
  · intro hs
    rw [h1]
    constructor
    · rintro ⟨n, hn, e⟩
      exact ⟨n, hn, (ToUpper_eq_iff_sameInSomeCasing lib s n hs (staticWriteSet_upper n hn)).1 e⟩
    · rintro ⟨n, hn, e⟩
      exact ⟨n, hn, (ToUpper_eq_iff_sameInSomeCasing lib s n hs (staticWriteSet_upper n hn)).2 e⟩
  · exact IsWriteCommand_empty lib

theorem IsWriteCommand_spec_witness :
    IsWriteCommand sampleLib "sEt" = true ∧ IsWriteCommand sampleLib "get" = false :=
  ⟨(IsWriteCommand_spec sampleLib "sEt").2.2.1 (by decide) |>.2 ⟨"SET", by decide, by unfold SameInSomeCasing; decide⟩,
   (IsWriteCommand_spec sampleLib "get").2.1.2 (by decide)⟩

/-! ### strings.Fields and strings.TrimSpace -/

theorem fieldsGo_tokenized (l : List Char) :
    (∀ w : List Char, w ≠ [] → (∀ c ∈ w, isSpace c = false) →
      Tokenized (w ++ l) (fieldsGo (some w) l)) ∧ Tokenized l (fieldsGo none l) := by
  induction l with
  | nil =>
    refine ⟨fun w hw hn => ?_, Tokenized.done⟩
    simpa [fieldsGo] using Tokenized.last w hw hn
  | cons c cs ih =>
    obtain ⟨ih1, ih2⟩ := ih
    by_cases hc : isSpace c = true
    · refine ⟨fun w hw hn => ?_, ?_⟩
      · simp only [fieldsGo, hc, if_true]
        exact Tokenized.cons w c cs _ hw hn hc ih2
      · simp only [fieldsGo, hc, if_true]
        exact Tokenized.space c cs _ hc ih2
    · have hc' : isSpace c = false := by simpa using hc
      refine ⟨fun w hw hn => ?_, ?_⟩
      · simp only [fieldsGo, hc']
        have := ih1 (w ++ [c]) (by simp) (by
          intro x hx
          rcases List.mem_append.1 hx with h | h
          · exact hn x h
          · simp at h; rw [h]; exact hc')
        simpa using this
      · simp only [fieldsGo, hc']
        have := ih1 [c] (by simp) (by intro x hx; simp at hx; rw [hx]; exact hc')
        simpa using this

theorem fieldsGo_some_append (t : List Char) (ht : ∀ c ∈ t, isSpace c = false) :
    ∀ (w rest : List Char), fieldsGo (some w) (t ++ rest) = fieldsGo (some (w ++ t)) rest := by
  induction t with
  | nil => intro w rest; simp
  | cons a t ih =>
    intro w rest
    have ha : isSpace a = false := ht a (by simp)
    have := ih (fun c hc => ht c (by simp [hc])) (w ++ [a]) rest
    simp only [List.cons_append, fieldsGo, ha]
    simpa using this

theorem fieldsGo_none_token (t : List Char) (h0 : t ≠ []) (ht : ∀ c ∈ t, isSpace c = false)
    (rest : List Char) : fieldsGo none (t ++ rest) = fieldsGo (some t) rest := by
  cases t with
  | nil => exact absurd rfl h0
  | cons a t =>
    have ha : isSpace a = false := ht a (by simp)
    have := fieldsGo_some_append t (fun c hc => ht c (by simp [hc])) [a] rest
    simp only [List.cons_append, fieldsGo, ha]
    simpa using this

theorem Tokenized.unique {l : List Char} {toks : List (List Char)} (h : Tokenized l toks) :
    fieldsGo none l = toks := by
  induction h with
  | done => rfl
  | space c line toks hc _ ih => simp [fieldsGo, hc, ih]
  | last t h0 ht =>
    have := fieldsGo_none_token t h0 ht []
    simpa [fieldsGo] using this
  | cons t c line toks h0 ht hc _ ih =>
    rw [fieldsGo_none_token t h0 ht]
    simp [fieldsGo, hc, ih]

theorem Tokenized.tokens {l : List Char} {toks : List (List Char)} (h : Tokenized l toks) :
    ∀ t ∈ toks, t ≠ [] ∧ ∀ c ∈ t, isSpace c = false := by
  induction h with
  | done => simp
  | space c line toks _ _ ih => exact ih
  | last t h0 ht => intro x hx; simp at hx; subst hx; exact ⟨h0, ht⟩
  | cons t c line toks h0 ht _ _ ih =>
    intro x hx
    rcases List.mem_cons.1 hx with h | h
    · subst h; exact ⟨h0, ht⟩
    · exact ih x h

theorem Tokenized.blank {l : List Char} (h : Tokenized l []) : ∀ c ∈ l, isSpace c = true := by
  generalize ht : ([] : List (List Char)) = toks at h
  induction h with
  | done => simp
  | space c line toks hc _ ih =>
    intro x hx
    rcases List.mem_cons.1 hx with e | e
    · rw [e]; exact hc
    · exact ih ht x e
  | last t _ _ => simp at ht
  | cons t c line toks _ _ _ _ _ => simp at ht

theorem fieldsGo_iff (l : List Char) (toks : List (List Char)) :
    fieldsGo none l = toks ↔ Tokenized l toks :=
  ⟨fun h => h ▸ (fieldsGo_tokenized l).2, Tokenized.unique⟩

theorem fieldsGo_all_space (l : List Char) (h : ∀ c ∈ l, isSpace c = true) :
    fieldsGo none l = [] := by
  induction l with
  | nil => rfl
  | cons c cs ih =>
    have hc : isSpace c = true := h c (by simp)
    simp [fieldsGo, hc, ih (fun x hx => h x (by simp [hx]))]

theorem fieldsGo_dropWhile (l : List Char) :
    fieldsGo none (l.dropWhile isSpace) = fieldsGo none l := by
  induction l with
  | nil => rfl
  | cons c cs ih =>
    by_cases hc : isSpace c = true
    · simp [List.dropWhile, fieldsGo, hc, ih]
    · have hc' : isSpace c = false := by simpa using hc
      simp [List.dropWhile, hc']

theorem fieldsGo_concat_space (c : Char) (hc : isSpace c = true) (l : List Char) :
    ∀ st, fieldsGo st (l ++ [c]) = fieldsGo st l := by
  induction l with
  | nil =>
    intro st
    cases st <;> simp [fieldsGo, hc]
  | cons a l ih =>
    intro st
    cases st with
    | none =>
      by_cases ha : isSpace a = true
      · simp [fieldsGo, ha, ih]
      · have ha' : isSpace a = false := by simpa using ha
        simp [fieldsGo, ha', ih]
    | some w =>
      by_cases ha : isSpace a = true
      · simp [fieldsGo, ha, ih]
      · have ha' : isSpace a = false := by simpa using ha
        simp [fieldsGo, ha', ih]

theorem fieldsGo_rdropWhile (l : List Char) :
    ∀ st, fieldsGo st (l.rdropWhile isSpace) = fieldsGo st l := by
  induction l using List.reverseRecOn with
  | nil => intro st; rfl
  | append_singleton l c ih =>
    intro st
    rw [List.rdropWhile_concat]
    by_cases hc : isSpace c = true
    · simp only [hc, if_true]
      rw [ih, fieldsGo_concat_space c hc]
    · simp [hc]

theorem Fields_TrimSpace (s : String) : Fields (TrimSpace s) = Fields s := by
  unfold Fields TrimSpace
  have : ((s.data.dropWhile isSpace).reverse.dropWhile isSpace).reverse
      = (s.data.dropWhile isSpace).rdropWhile isSpace := rfl
  simp only [this, fieldsGo_rdropWhile, fieldsGo_dropWhile]

theorem Fields_eq_nil_iff (s : String) : Fields s = [] ↔ ∀ c ∈ s.data, isSpace c = true := by
  constructor
  · intro hf
    have h1 : fieldsGo none s.data = [] := by simpa [Fields] using hf
    exact ((fieldsGo_iff s.data []).1 h1).blank
  · intro h
    simp [Fields, fieldsGo_all_space _ h]

theorem TrimSpace_blank (s : String) (h : ∀ c ∈ s.data, isSpace c = true) :
    TrimSpace s = "" := by
  have : s.data.dropWhile isSpace = [] := List.dropWhile_eq_nil_iff.2 h
  simp [TrimSpace, this]

theorem TrimSpace_eq_empty_iff (s : String) :
    TrimSpace s = "" ↔ ∀ c ∈ s.data, isSpace c = true := by
  constructor
  · intro h
    have h1 : Fields (TrimSpace s) = [] := by rw [h]; rfl
    rw [Fields_TrimSpace] at h1
    exact (Fields_eq_nil_iff s).1 h1
  · exact TrimSpace_blank s

/-! ### The loops of Parse and of the pair decoders -/

theorem parseLoop_eq (parts : List String) :
    ∀ (n i : Nat) (args : List String), parts.length - i = n →
      parseLoop parts i args = args ++ parts.drop i := by
  intro n
  induction n with
  | zero =>
    intro i args h
    have hi : ¬ i < parts.length := by omega
    rw [parseLoop]
    simp [hi, List.drop_eq_nil_of_le (by omega : parts.length ≤ i)]
  | succ n ih =>
    intro i args h
    have hi : i < parts.length := by omega
    rw [parseLoop]
    simp only [hi, dite_true]
    rw [ih (i + 1) _ (by omega)]
    rw [List.append_assoc]
    congr 1
    rw [List.singleton_append]
    exact (List.drop_eq_getElem_cons hi).symm

theorem Parse_nil (lib : GoLib) (line : String) (h : Fields line = []) :
    Parse lib line = ("", []) := by
  simp [Parse, h]

theorem Parse_cons (lib : GoLib) (line : String) (t0 : String) (ts : List String)
    (h : Fields line = t0 :: ts) : Parse lib line = (ToUpper lib t0, ts) := by
  simp [Parse, h, parseLoop_eq _ _ 1 [] rfl]

/-! ### Parse -/

/-- C3: the fields `Parse` works on are the tokens of the line, split on runs of
white space, and the only such split; a line without tokens gives the empty name
and no arguments; otherwise the name is the first token upper-cased and the
arguments are the remaining tokens, unchanged and in order, so that no argument
is empty or holds white space and there is one argument less than tokens. -/
theorem Parse_tokens (lib : GoLib) (line : String) :
    Tokenized line.data ((Fields line).map String.data) ∧
    (∀ toks : List (List Char), Tokenized line.data toks → toks = (Fields line).map String.data) ∧
    (Fields line = [] → Parse lib line = ("", [])) ∧
    (∀ (t0 : String) (ts : List String), Fields line = t0 :: ts →
      Parse lib line = (ToUpper lib t0, ts)) ∧
    (∀ a ∈ (Parse lib line).2, a ≠ "" ∧ ∀ c ∈ a.data, isSpace c = false) ∧
    (Parse lib line).2.length = (Fields line).length - 1 := by
  have hmap : (Fields line).map String.data = fieldsGo none line.data := by
    simp [Fields, Function.comp_def]
  have htok : Tokenized line.data ((Fields line).map String.data) := by
    rw [hmap]; exact (fieldsGo_tokenized line.data).2
  refine ⟨htok, ?_, Parse_nil lib line, Parse_cons lib line, ?_, ?_⟩
  · intro toks h
    rw [hmap, h.unique]
  · intro a ha
    have hmem : a ∈ Fields line := by
      cases hf : Fields line with
      | nil => rw [Parse_nil lib line hf] at ha; simp at ha
      | cons t0 ts =>
        rw [Parse_cons lib line t0 ts hf] at ha
        simp [ha]
    have := htok.tokens a.data (List.mem_map_of_mem _ hmem)
    refine ⟨fun e => this.1 (by rw [e]), this.2⟩
  · cases hf : Fields line with
    | nil => rw [Parse_nil lib line hf]; rfl
    | cons t0 ts => rw [Parse_cons lib line t0 ts hf]; simp

theorem Parse_tokens_witness :
    Parse sampleLib "set  foo\tbar " = ("SET", ["foo", "bar"]) :=
  (Parse_tokens sampleLib "set  foo\tbar ").2.2.2.1 "set" ["foo", "bar"] (by decide)

/-! ### The pair decoder of HGETALL -/

theorem hashLoop_eq (vals : List String) :
    ∀ (k i : Nat) (fields : List HashField), vals.length - i ≤ k →
      hashLoop vals i fields = fields ++ pairUp (vals.drop i) := by
  intro k
  induction k with
  | zero =>
    intro i fields h
    have hi : ¬ i < vals.length := by omega
    rw [hashLoop]
    simp [hi, List.drop_eq_nil_of_le (by omega : vals.length ≤ i), pairUp]
  | succ k ih =>
    intro i fields h
    rw [hashLoop]
    by_cases hi : i < vals.length
    · by_cases hi1 : i + 1 < vals.length
      · simp only [hi, hi1, dite_true]
        rw [ih (i + 2) _ (by omega), List.drop_eq_getElem_cons hi,
          List.drop_eq_getElem_cons hi1]
        simp [pairUp]
      · simp only [hi, hi1, dite_true, dite_false]
        rw [ih (i + 2) _ (by omega), List.drop_eq_getElem_cons hi,
          List.drop_eq_nil_of_le (by omega : vals.length ≤ i + 2),
          List.drop_eq_nil_of_le (by omega : vals.length ≤ i + 1)]
        simp [pairUp]
    · simp [hi, List.drop_eq_nil_of_le (by omega : vals.length ≤ i), pairUp]

theorem pairUp_props :
    ∀ (n : Nat) (vals : List String), vals.length ≤ n →
      (pairUp vals).length = vals.length / 2 ∧
      (pairUp vals).flatMap (fun f => [f.Key, f.Value]) = vals.take (2 * (vals.length / 2)) ∧
      ∀ i, i < vals.length / 2 →
        ((pairUp vals)[i]?).map HashField.Key = vals[2 * i]? ∧
        ((pairUp vals)[i]?).map HashField.Value = vals[2 * i + 1]? := by
  intro n
  induction n using Nat.strong_induction_on with
  | _ n ih =>
    intro vals hn
    match vals, hn with
    | [], _ => simp [pairUp]
    | [a], _ => simp [pairUp]
    | a :: b :: rest, hn =>
      have hlen : (a :: b :: rest).length = rest.length + 2 := rfl
      obtain ⟨h1, h2, h3⟩ := ih rest.length (by rw [hlen] at hn; omega) rest (le_refl _)
      have hdiv : (rest.length + 2) / 2 = rest.length / 2 + 1 := by omega
      refine ⟨?_, ?_, ?_⟩
      · simp only [pairUp, List.length_cons, h1]; omega
      · rw [hlen, hdiv]
        have : 2 * (rest.length / 2 + 1) = 2 * (rest.length / 2) + 2 := by ring
        rw [this]
        simp [pairUp, h2, List.flatMap_cons]
      · intro i hi
        rw [hlen, hdiv] at hi
        cases i with
        | zero => simp [pairUp]
        | succ j =>
          have := h3 j (by omega)
          have e1 : 2 * (j + 1) = 2 * j + 1 + 1 := by ring
          have e2 : 2 * (j + 1) + 1 = 2 * j + 1 + 1 + 1 := by ring
          simp only [pairUp, List.getElem?_cons_succ, e1, e2]
          simpa using this

/-- C4: for a flat reply `vals` of length `n`, decoding the reply of `HGETALL`
returns `n / 2` fields, field `i` with key `vals[2i]` and value `vals[2i+1]`;
the fields laid out flat are `vals` without its last element when `n` is odd. -/
theorem parseHashResult_pairs (lib : GoLib) (result : Cmd) (vals : List String)
    (h : result.StringSlice = .ok vals) :
    ∃ fields : List HashField,
      parseHashResult lib "HGETALL" result = .ok (.hashResult ⟨fields⟩) ∧
      parseResult lib "HGETALL" result = .ok (.hashResult ⟨fields⟩) ∧
      fields = pairUp vals ∧
      fields.length = vals.length / 2 ∧
      fields.flatMap (fun f => [f.Key, f.Value]) = vals.take (2 * (vals.length / 2)) ∧
      ∀ i, i < vals.length / 2 →
        (fields[i]?).map HashField.Key = vals[2 * i]? ∧
        (fields[i]?).map HashField.Value = vals[2 * i + 1]? := by
  have hcmd : ToUpper lib "HGETALL" ≠ "HGET" := by
    simp [ToUpper, unicodeToUpper]
  have hl : hashLoop vals 0 [] = pairUp vals := by
    simpa using hashLoop_eq vals vals.length 0 [] (by omega)
  obtain ⟨h1, h2, h3⟩ := pairUp_props vals.length vals (le_refl _)
  have hu : ToUpper lib "HGETALL" = "HGETALL" := rfl
  have hp : parseHashResult lib "HGETALL" result = .ok (.hashResult ⟨pairUp vals⟩) := by
    simp [parseHashResult, hcmd, h, hl]
  refine ⟨pairUp vals, hp, ?_, rfl, h1, h2, h3⟩
  simp only [parseResult, hu, String.reduceEq, if_false, or_true, if_true, hp]

theorem parseHashResult_pairs_witness :
    ∃ fields : List HashField,
      parseHashResult sampleLib "HGETALL"
        { nilReply with Err := none, StringSlice := .ok ["k1", "v1", "k2", "v2", "x"] }
        = .ok (.hashResult ⟨fields⟩) ∧
      fields = [⟨"k1", "v1"⟩, ⟨"k2", "v2"⟩] := by
  obtain ⟨fields, h1, _, h2, _⟩ := parseHashResult_pairs sampleLib
    { nilReply with Err := none, StringSlice := .ok ["k1", "v1", "k2", "v2", "x"] }
    ["k1", "v1", "k2", "v2", "x"] rfl
  exact ⟨fields, h1, by rw [h2]; rfl⟩

/-! ### The renderer -/

theorem lineCount_append (a b : String) : lineCount (a ++ b) = lineCount a + lineCount b := by
  simp [lineCount, String.data_append, List.count_append]

theorem digitChar_ne_newline (m : Nat) (h : m < 10) : Nat.digitChar m ≠ '\n' := by
  interval_cases m <;> decide

theorem toDigitsCore_no_newline :
    ∀ (fuel n : Nat) (ds : List Char), (∀ c ∈ ds, c ≠ '\n') →
      ∀ c ∈ Nat.toDigitsCore 10 fuel n ds, c ≠ '\n' := by
  intro fuel
  induction fuel with
  | zero => intro n ds h; simpa [Nat.toDigitsCore] using h
  | succ fuel ih =>
    intro n ds h
    have hd : ∀ c ∈ Nat.digitChar (n % 10) :: ds, c ≠ '\n' := by
      intro c hc
      rcases List.mem_cons.1 hc with e | e
      · rw [e]; exact digitChar_ne_newline _ (Nat.mod_lt _ (by decide))
      · exact h c e
    unfold Nat.toDigitsCore
    by_cases h0 : n / 10 = 0
    · simpa [h0] using hd
    · simp only [h0, if_false]
      exact ih _ _ hd

theorem lineCount_toString_nat (n : Nat) : lineCount (toString n) = 0 := by
  have : ∀ c ∈ (toString n).data, c ≠ '\n' := by
    show ∀ c ∈ (Nat.repr n).data, c ≠ '\n'
    exact toDigitsCore_no_newline _ _ [] (by simp)
  unfold lineCount
  rw [List.count_eq_zero]
  intro hmem
  exact this _ hmem rfl

theorem foldl_append_init (l : List String) :
    ∀ init : String, List.foldl (fun r s => r ++ s) init l
      = init ++ List.foldl (fun r s => r ++ s) "" l := by
  induction l with
  | nil => intro init; simp
  | cons a l ih =>
    intro init
    simp only [List.foldl_cons]
    rw [ih (init ++ a), ih ("" ++ a)]
    simp [String.append_assoc]

theorem join_cons (a : String) (l : List String) :
    String.join (a :: l) = a ++ String.join l := by
  simp only [String.join, List.foldl_cons]
  rw [foldl_append_init]
  simp

theorem displayStringArrayLoop_noColor (pretty : Bool) :
    ∀ (arr : List String) (i : Nat),
      displayStringArrayLoop ⟨pretty, true⟩ i arr =
        String.join ((arr.enumFrom i).map fun p => toString (p.1 + 1) ++ ") " ++ p.2 ++ "\n") := by
  intro arr
  induction arr with
  | nil => intro i; rfl
  | cons a arr ih =>
    intro i
    simp [displayStringArrayLoop, ih, join_cons, List.enumFrom]

theorem displayStringArrayLoop_lineCount (pretty : Bool) :
    ∀ (arr : List String) (i : Nat), (∀ v ∈ arr, '\n' ∉ v.data) →
      lineCount (displayStringArrayLoop ⟨pretty, true⟩ i arr) = arr.length := by
  intro arr
  induction arr with
  | nil => intro i _; rfl
  | cons a arr ih =>
    intro i h
    have ha : lineCount a = 0 := by
      unfold lineCount
      exact List.count_eq_zero.2 (h a (by simp))
    have h1 : lineCount ") " = 0 := by decide
    have h2 : lineCount "\n" = 1 := by decide
    simp only [displayStringArrayLoop, Bool.not_true, Bool.false_eq_true, if_false,
      lineCount_append, lineCount_toString_nat, ha, h1, h2,
      ih (i + 1) (fun v hv => h v (by simp [hv])), List.length_cons]
    omega

/-- C6 (amended): without colors an empty list is rendered as `(empty array)`;
a non-empty one as, for each element in order, its 1-based position in decimal,
`) `, the element and a line feed; and when no element holds a line feed the
output has as many lines as the list has elements. -/
theorem displayStringArray_noColor (arr : List String) (pretty : Bool) :
    (arr = [] → displayStringArray arr ⟨pretty, true⟩ = "(empty array)\n") ∧
    (arr ≠ [] → displayStringArray arr ⟨pretty, true⟩ =
      String.join (arr.enum.map fun p => toString (p.1 + 1) ++ ") " ++ p.2 ++ "\n")) ∧
    (arr ≠ [] → (∀ v ∈ arr, '\n' ∉ v.data) →
      lineCount (displayStringArray arr ⟨pretty, true⟩) = arr.length) := by
  refine ⟨?_, ?_, ?_⟩
  · intro h; subst h; rfl
  · intro h
    have hl : ¬ arr.length = 0 := by simpa using h
    simp only [displayStringArray, hl, if_false]
    exact displayStringArrayLoop_noColor pretty arr 0
  · intro h hv
    have hl : ¬ arr.length = 0 := by simpa using h
    simp only [displayStringArray, hl, if_false]
    exact displayStringArrayLoop_lineCount pretty arr 0 hv

theorem displayStringArray_noColor_witness :
    displayStringArray ["a", "b"] ⟨false, true⟩ = "1) a\n2) b\n" ∧
    lineCount (displayStringArray ["a", "b"] ⟨false, true⟩) = 2 :=
  ⟨((displayStringArray_noColor ["a", "b"] false).2.1 (by decide)).trans (by decide),
   (displayStringArray_noColor ["a", "b"] false).2.2 (by decide) (by decide)⟩

/-- C6 (as stated): the list of the one element `a`, line feed, `b` is rendered
on two lines, so the output has more lines than the list has elements. -/
theorem displayStringArray_line_feed :
    displayStringArray ["a\nb"] ⟨false, true⟩ = "1) a\nb\n" ∧
    lineCount (displayStringArray ["a\nb"] ⟨false, true⟩) ≠ ["a\nb"].length := by
  decide

theorem hasPrefix_singleton (t : String) (c : Char) :
    HasPrefix t ⟨[c]⟩ = true ↔ t.data.head? = some c := by
  unfold HasPrefix
  cases h : t.data with
  | nil => simp [List.isPrefixOf]
  | cons a l =>
    simp only [List.isPrefixOf, List.head?_cons, Option.some.injEq, Bool.and_true,
      beq_iff_eq]
    exact eq_comm

theorem hasSuffix_singleton (t : String) (c : Char) :
    HasSuffix t ⟨[c]⟩ = true ↔ t.data.getLast? = some c := by
  unfold HasSuffix
  rw [List.isSuffixOf, ← List.head?_reverse]
  cases h : t.data.reverse with
  | nil => simp [List.isPrefixOf]
  | cons a l =>
    simp only [List.isPrefixOf, List.head?_cons, Option.some.injEq, Bool.and_true,
      beq_iff_eq]
    exact eq_comm

/-- C7: `isJSON` holds exactly when the trimmed text starts with an opening and
ends with the matching closing brace or bracket; with `pretty` set, a text for
which it fails or which does not parse as JSON is rendered as without `pretty`,
verbatim; a text for which it holds and which parses is rendered as the
re-indented text the JSON encoder returns for the parsed value. -/
theorem displayString_pretty (lib : GoLib) (s : String) (noColor : Bool) :
    (isJSON s = true ↔
      ((TrimSpace s).data.head? = some '\x7b' ∧ (TrimSpace s).data.getLast? = some '\x7d') ∨
      ((TrimSpace s).data.head? = some '[' ∧ (TrimSpace s).data.getLast? = some ']')) ∧
    Result lib (.raw (.string s)) ⟨false, noColor⟩ =
      (if noColor then s ++ "\n" else colorString ++ s ++ Reset ++ "\n") ∧
    (isJSON s = false ∨ lib.unmarshal s = none →
      Result lib (.raw (.string s)) ⟨true, noColor⟩ =
        Result lib (.raw (.string s)) ⟨false, noColor⟩) ∧
    (∀ (data : lib.Json) (formatted : String), isJSON s = true →
      lib.unmarshal s = some data → lib.marshalIndent data = some formatted →
      Result lib (.raw (.string s)) ⟨true, noColor⟩ =
        (if noColor then formatted ++ "\n" else colorString ++ formatted ++ Reset ++ "\n")) := by
  refine ⟨?_, ?_, ?_, ?_⟩
  · have e1 : ("\x7b" : String) = ⟨['\x7b']⟩ := rfl
    have e2 : ("\x7d" : String) = ⟨['\x7d']⟩ := rfl
    have e3 : ("[" : String) = ⟨['[']⟩ := rfl
    have e4 : ("]" : String) = ⟨[']']⟩ := rfl
    simp only [isJSON, Bool.or_eq_true, Bool.and_eq_true, e1, e2, e3, e4,
      hasPrefix_singleton, hasSuffix_singleton]
  · cases noColor <;> simp [Result, displayString]
  · intro h
    cases noColor <;> rcases h with h | h <;>
      simp [Result, displayString, displayAsJSONPretty, h]
  · intro data formatted h1 h2 h3
    cases noColor <;> simp [Result, displayString, displayAsJSONPretty, h1, h2, h3]

theorem displayString_pretty_witness :
    Result sampleLib (.raw (.string "\"hello\"")) ⟨true, true⟩ = "\"hello\"\n" ∧
    Result sampleLib (.raw (.string "\x7bx\x7d")) ⟨true, true⟩ = "\x7bx\x7d\n" ∧
    Result sampleLib (.raw (.string "\x7b\x7d")) ⟨true, false⟩
      = "\x1b[32m\x7b\x7d\x1b[0m\n" :=
  ⟨((displayString_pretty sampleLib "\"hello\"" true).2.2.1 (Or.inl (by decide))).trans
      (by decide),
   ((displayString_pretty sampleLib "\x7bx\x7d" true).2.2.1 (Or.inr rfl)).trans
      (by decide),
   ((displayString_pretty sampleLib "\x7b\x7d" false).2.2.2 () "\x7b\x7d" (by decide)
      rfl rfl).trans (by decide)⟩

/-- C5: with `pretty` set and colors off, the block of a pair whose value is the
JSON text of the empty object is the `field:` line, the value alone on a line
and an empty line, without the `value:` label that the block has without
`pretty` and that the colored block has with it. -/
theorem displayHash_noColor_pretty (lib : GoLib) (data : lib.Json)
    (h1 : lib.unmarshal "\x7b\x7d" = some data)
    (h2 : lib.marshalIndent data = some "\x7b\x7d") :
    displayHash lib ⟨[⟨"k", "\x7b\x7d"⟩]⟩ ⟨true, true⟩ = "field: k\n\x7b\x7d\n\n" ∧
    displayHash lib ⟨[⟨"k", "\x7b\x7d"⟩]⟩ ⟨false, true⟩ = "field: k\nvalue: \x7b\x7d\n\n" ∧
    displayHash lib ⟨[⟨"k", "\x7b\x7d"⟩]⟩ ⟨true, false⟩ =
      "\x1b[33mfield:\x1b[0m \x1b[36mk\x1b[0m\n\x1b[33mvalue:\x1b[0m \x1b[32m\x7b\x7d\x1b[0m\n\n" := by
  have hj : isJSON "\x7b\x7d" = true := by decide
  refine ⟨?_, ?_, ?_⟩
  · simp [displayHash, displayHashLoop, displayHashField, displayAsJSONPretty, hj, h1, h2]
  · simp [displayHash, displayHashLoop, displayHashField]
  · simp [displayHash, displayHashLoop, displayHashField, displayAsJSONPretty, hj, h1, h2]
    decide

theorem displayHash_noColor_pretty_witness :
    displayHash sampleLib ⟨[⟨"k", "\x7b\x7d"⟩]⟩ ⟨true, true⟩ = "field: k\n\x7b\x7d\n\n" :=
  (displayHash_noColor_pretty sampleLib () rfl rfl).1

/-! ### The session loop -/

theorem Parse_TrimSpace (lib : GoLib) (s : String) : Parse lib (TrimSpace s) = Parse lib s := by
  cases h : Fields s with
  | nil => rw [Parse_nil lib s h, Parse_nil lib _ (by rw [Fields_TrimSpace, h])]
  | cons t0 ts =>
    rw [Parse_cons lib s t0 ts h, Parse_cons lib _ t0 ts (by rw [Fields_TrimSpace, h])]

theorem mem_TrimSpace (s : String) (c : Char) (h : c ∈ (TrimSpace s).data) : c ∈ s.data := by
  unfold TrimSpace at h
  simp only [List.mem_reverse] at h
  have h1 := (List.dropWhile_sublist isSpace).subset h
  simp only [List.mem_reverse] at h1
  exact (List.dropWhile_sublist isSpace).subset h1

theorem ToLower_empty (lib : GoLib) : ToLower lib "" = "" := rfl

theorem ToUpper_empty (lib : GoLib) : ToUpper lib "" = "" := rfl

/-- C9: on a line of white space only, `Parse` returns the empty name and no
arguments, and the body of the loop does nothing: no call of `Execute`, nothing
written, the connection as it was, and the loop goes on. -/
theorem blank_line_no_action {σ : Type} (lib : GoLib) (writable : Bool)
    (displayConfig : display.Config) (send : σ → List String → Cmd × σ) (st : σ)
    (line : String) (h : ∀ c ∈ line.data, isSpace c = true) :
    Parse lib line = ("", []) ∧
    loopBody lib writable displayConfig send st line = ([], .Running, st) := by
  refine ⟨Parse_nil lib line ((Fields_eq_nil_iff line).2 h), ?_⟩
  simp [loopBody, TrimSpace_blank line h]

theorem blank_line_no_action_witness :
    Parse sampleLib " \t  " = ("", []) ∧
    loopBody sampleLib true ⟨false, false⟩ (fun (st : Nat) _ => (nilReply, st + 1)) 0 " \t  "
      = ([], .Running, 0) :=
  blank_line_no_action sampleLib true ⟨false, false⟩ _ 0 " \t  " (by decide)

/-- C10: the body of the loop ends the loop exactly when the trimmed line,
lower-cased, is `exit` or `quit` (for a line of ASCII runes: when it is `exit` or
`quit` in some casing), whatever the store answers and whether writing is
allowed; the loop over the remaining input stops after such a line and goes on
with the next line after any other. -/
theorem loop_exits_iff {σ : Type} (lib : GoLib) (writable : Bool)
    (displayConfig : display.Config) (send : σ → List String → Cmd × σ) (st : σ)
    (line : String) :
    ((loopBody lib writable displayConfig send st line).2.1 = .Exiting ↔
      (ToLower lib (TrimSpace line) = "exit" ∨ ToLower lib (TrimSpace line) = "quit")) ∧
    ((loopBody lib writable displayConfig send st line).2.1 = .Running ↔
      ¬ (ToLower lib (TrimSpace line) = "exit" ∨ ToLower lib (TrimSpace line) = "quit")) ∧
    ((∀ c ∈ line.data, c.toNat ≤ 0x7F) →
      ((loopBody lib writable displayConfig send st line).2.1 = .Exiting ↔
        (SameInSomeCasing (TrimSpace line) "exit" ∨
          SameInSomeCasing (TrimSpace line) "quit"))) ∧
    (∀ rest : List String,
      replLoop lib writable displayConfig send st (line :: rest) =
        .stdout "redcli> " :: (loopBody lib writable displayConfig send st line).1 ++
          (if ToLower lib (TrimSpace line) = "exit" ∨ ToLower lib (TrimSpace line) = "quit"
            then []
            else replLoop lib writable displayConfig send
              (loopBody lib writable displayConfig send st line).2.2 rest)) := by
  have key : (loopBody lib writable displayConfig send st line).2.1 = .Exiting ↔
      (ToLower lib (TrimSpace line) = "exit" ∨ ToLower lib (TrimSpace line) = "quit") := by
    unfold loopBody
    by_cases h0 : TrimSpace line = ""
    · simp [h0, ToLower_empty]
    · by_cases h1 : ToLower lib (TrimSpace line) = "exit" ∨ ToLower lib (TrimSpace line) = "quit"
      · simp [h0, h1]
      · simp only [h0, h1, if_false]
        split
        · simp
        · split
          · simp
          · split <;> simp
  have key2 : (loopBody lib writable displayConfig send st line).2.1 = .Running ↔
      ¬ (ToLower lib (TrimSpace line) = "exit" ∨ ToLower lib (TrimSpace line) = "quit") := by
    rw [← key]
    cases (loopBody lib writable displayConfig send st line).2.1 <;> simp
  refine ⟨key, key2, ?_, ?_⟩
  · intro hs
    have hs' : ∀ c ∈ (TrimSpace line).data, c.toNat ≤ 0x7F :=
      fun c hc => hs c (mem_TrimSpace line c hc)
    rw [key, ToLower_eq_iff_sameInSomeCasing lib _ "exit" hs' (by decide),
      ToLower_eq_iff_sameInSomeCasing lib _ "quit" hs' (by decide)]
  · intro rest
    by_cases hx : ToLower lib (TrimSpace line) = "exit" ∨ ToLower lib (TrimSpace line) = "quit"
    · have h1 := key.2 hx
      simp only [replLoop, h1, hx, if_true]
    · have h1 := key2.2 hx
      simp only [replLoop, h1, hx, if_false]

theorem loop_exits_iff_witness :
    (loopBody sampleLib false ⟨false, false⟩ (fun (st : Nat) _ => (nilReply, st + 1)) 0
      "  eXiT ").2.1 = .Exiting :=
  ((loop_exits_iff sampleLib false ⟨false, false⟩ _ 0 "  eXiT ").2.2.1 (by decide)).2
    (Or.inl (by unfold SameInSomeCasing; decide))

/-- C2: when writing is not allowed, on a line that is not `exit` or `quit` and
whose parsed command name is a write command, the body of the loop writes the
read-only-mode error naming that name, the first token upper-cased, to standard
error and nothing else, does not call `Execute`, leaves the connection as it
was, and the loop goes on. -/
theorem readOnly_rejects_write {σ : Type} (lib : GoLib) (displayConfig : display.Config)
    (send : σ → List String → Cmd × σ) (st : σ) (line : String)
    (hx : ¬ (ToLower lib (TrimSpace line) = "exit" ∨ ToLower lib (TrimSpace line) = "quit"))
    (hw : IsWriteCommand lib (Parse lib line).1 = true) :
    loopBody lib false displayConfig send st line =
      ([.stderr (colorError ++ ("Command \x27" ++ (Parse lib line).1 ++
          "\x27 is not allowed in read-only mode. Use --writable flag to enable write commands.\n")
          ++ Reset)], .Running, st) ∧
    ∃ (t0 : String) (ts : List String), Fields line = t0 :: ts ∧
      (Parse lib line).1 = ToUpper lib t0 := by
  have hne : (Parse lib line).1 ≠ "" := by
    intro e
    rw [e] at hw
    rw [IsWriteCommand_empty lib] at hw
    exact absurd hw (by simp)
  have hf : Fields line ≠ [] := by
    intro e
    rw [Parse_nil lib line e] at hne
    exact hne rfl
  have h0 : TrimSpace line ≠ "" := by
    intro e
    exact hf ((Fields_eq_nil_iff line).2 ((TrimSpace_eq_empty_iff line).1 e))
  refine ⟨?_, ?_⟩
  · unfold loopBody
    simp only [h0, hx, if_false, Parse_TrimSpace, hne, hw, Bool.not_false, Bool.and_self,
      if_true, display.Error]
  · obtain ⟨t0, ts, e⟩ := List.exists_cons_of_ne_nil hf
    exact ⟨t0, ts, e, by rw [Parse_cons lib line t0 ts e]⟩

theorem readOnly_rejects_write_witness :
    loopBody sampleLib false ⟨false, false⟩ (fun (st : Nat) _ => (nilReply, st + 1)) 0
      "set foo bar" =
      ([.stderr "\x1b[31mCommand \x27SET\x27 is not allowed in read-only mode. Use --writable flag to enable write commands.\n\x1b[0m"],
        .Running, 0) :=
  ((readOnly_rejects_write sampleLib ⟨false, false⟩ (fun (st : Nat) _ => (nilReply, st + 1)) 0
    "set foo bar" (by decide) (by decide)).1).trans (by decide)

theorem ToUpper_GET (lib : GoLib) : ToUpper lib "GET" = "GET" := rfl

theorem ToLower_GET_missing (lib : GoLib) : ToLower lib "GET missing" = "get missing" := rfl

theorem Execute_GET_ne_nil {σ : Type} (lib : GoLib) (send : σ → List String → Cmd × σ)
    (st : σ) (args : List String) :
    (Execute lib send st "GET" args).1 ≠ .ok (.raw .nil) := by
  unfold Execute
  simp only
  split
  · simp
  · simp only [parseResult, ToUpper_GET, if_true]
    cases (send st ([] ++ ["GET"] ++ args)).1.Text <;> simp [Except.map]

/-- C8: on the line `GET missing`, when the store replies nil, the body of the
loop calls `Execute` and writes the error `Error: redis: nil` to standard error;
whatever the connection returns, `Execute` of `GET` never yields the nil result,
which the renderer would print as `(nil)`. -/
theorem get_missing_nil_reply {σ : Type} (lib : GoLib) (writable : Bool)
    (displayConfig : display.Config) (st : σ) :
    loopBody lib writable displayConfig (fun s _ => (nilReply, s)) st "GET missing" =
      ([.execute "GET" ["missing"], .stderr "\x1b[31mError: redis: nil\n\x1b[0m"],
        .Running, st) ∧
    (∀ (send : σ → List String → Cmd × σ) (args : List String),
      (Execute lib send st "GET" args).1 ≠ .ok (.raw .nil)) ∧
    Result lib (.raw .nil) displayConfig = "(nil)\n" := by
  refine ⟨?_, fun send args => Execute_GET_ne_nil lib send st args, rfl⟩
  have ht : TrimSpace "GET missing" = "GET missing" := by decide
  have hp : Parse lib "GET missing" = ("GET", ["missing"]) := by
    rw [Parse_cons lib "GET missing" "GET" ["missing"] (by decide), ToUpper_GET]
  have hw : IsWriteCommand lib "GET" = false := by
    rw [← Bool.not_eq_true, IsWriteCommand_iff_mem, ToUpper_GET]
    decide
  have e1 : ¬ ("get missing" = "exit" ∨ "get missing" = "quit") := by decide
  have e2 : ¬ ("GET" = "") := by decide
  have e3 : display.Error ("Error: " ++ "redis: nil" ++ "\n") = "\x1b[31mError: redis: nil\n\x1b[0m" := by
    decide
  unfold loopBody
  simp only [ht, ToLower_GET_missing, e1, hp, e2, hw, if_false, Bool.and_false,
    String.reduceEq, Bool.false_eq_true, Execute, nilReply, e3, or_self]

end Redcli
